import Mathlib

/-!
# Verification of the imagine canvas state model

Shallow embedding of the state-transition logic of `src/src/App.tsx`
(and its earlier variant `src/unnamed/part_000`, whose state logic is
identical): an in-memory list of image records, a 2-D pan offset, and
two z-index counters, mutated by the event handlers of the component.

Numeric fields (coordinates, dimensions, scale, pan) are rationals;
z-indices and the two counters are integers.  The source generates ids
with `uuidv4()`; freshness of generated ids is modelled by drawing ids
from a `nextId` counter carried in the canvas state.
-/

namespace Imagine

/-- The `Image` record of `App.tsx` (`type Image`). -/
structure Image where
  id : Nat
  src : String
  x : ℚ
  y : ℚ
  width : ℚ
  height : ℚ
  dragging : Bool
  selected : Bool
  zIndex : ℤ
  scale : ℚ
deriving DecidableEq

/-- The full mutable state of the `App` component: the `images` list,
the spring pan offset `panX`/`panY`, and the two z-counters
`maxZIndex`/`minZIndex` (refs in the source).  `nextId` models the
fresh-id supply of `uuidv4()`. -/
structure Canvas where
  images : List Image
  panX : ℚ
  panY : ℚ
  maxZIndex : ℤ
  minZIndex : ℤ
  nextId : Nat
deriving DecidableEq

/-- Initial component state: no images, pan `(0,0)`,
`maxZIndex = useRef(1)`, `minZIndex = useRef(-1)`. -/
def initCanvas : Canvas :=
  { images := [], panX := 0, panY := 0, maxZIndex := 1, minZIndex := -1, nextId := 0 }

/-- The `initialX`/`initialY` computation of `onDrop`: starts at `0`,
adds `|pan|` when the pan is negative, subtracts `pan` when positive. -/
def initialCoord (pan : ℚ) : ℚ :=
  if pan < 0 then 0 + |pan| else if pan > 0 then 0 - pan else 0

/-- The `initalScale` computation of `onDrop` (source spelling kept):
starts at `1`; the first `if` overwrites it with `600 / width` when
`width > 600`; the second `if` overwrites it with `600 / height` when
`height > 600`.  The second `if` is not an `else if`, so when both
dimensions exceed 600 the height branch wins. -/
def initalScale (w h : ℚ) : ℚ :=
  let s1 := if w > 600 then 600 / w else 1
  if h > 600 then 600 / h else s1

/-- The record `onDrop` appends: initial position from the pan offset,
natural dimensions stored in `width`/`height`, not dragging, not
selected, `zIndex := maxZIndex.current` (the counter value before the
post-increment), and the computed initial scale. -/
def newImage (src : String) (w h : ℚ) (s : Canvas) : Image :=
  { id := s.nextId
    src := src
    x := initialCoord s.panX
    y := initialCoord s.panY
    width := w
    height := h
    dragging := false
    selected := false
    zIndex := s.maxZIndex
    scale := initalScale w h }

/-- `onDrop` (image load callback): appends the new image record and
increments the top z-counter (`zIndex: maxZIndex.current++`). -/
def onDrop (src : String) (w h : ℚ) (s : Canvas) : Canvas :=
  { s with
    images := s.images ++ [newImage src w h s]
    maxZIndex := s.maxZIndex + 1
    nextId := s.nextId + 1 }

/-- The body of `moveToFront`'s `prevImages.map`: each image whose id
matches receives `zIndex: maxZIndex.current++` (post-increment, applied
left to right).  Returns the new list, the final counter, and the list
of z values assigned, in assignment order. -/
def bringToFront (id : Nat) : List Image → ℤ → List Image × ℤ × List ℤ
  | [], z => ([], z, [])
  | img :: rest, z =>
    if img.id = id then
      let r := bringToFront id rest (z + 1)
      ({ img with zIndex := z } :: r.1, r.2.1, z :: r.2.2)
    else
      let r := bringToFront id rest z
      (img :: r.1, r.2.1, r.2.2)

/-- `moveToFront(id)`. -/
def moveToFront (id : Nat) (s : Canvas) : Canvas :=
  let r := bringToFront id s.images s.maxZIndex
  { s with images := r.1, maxZIndex := r.2.1 }

/-- The body of `moveToBack`'s `prevImages.map`: matching images receive
`zIndex: minZIndex.current--` (post-decrement). -/
def sendToBack (id : Nat) : List Image → ℤ → List Image × ℤ × List ℤ
  | [], z => ([], z, [])
  | img :: rest, z =>
    if img.id = id then
      let r := sendToBack id rest (z - 1)
      ({ img with zIndex := z } :: r.1, r.2.1, z :: r.2.2)
    else
      let r := sendToBack id rest z
      (img :: r.1, r.2.1, r.2.2)

/-- `moveToBack(id)`. -/
def moveToBack (id : Nat) (s : Canvas) : Canvas :=
  let r := sendToBack id s.images s.minZIndex
  { s with images := r.1, minZIndex := r.2.1 }

/-- `unselectAllImages()`: maps `selected := false` over every image. -/
def unselectAllImages (s : Canvas) : Canvas :=
  { s with images := s.images.map (fun img => { img with selected := false }) }

/-- `deleteAllImages()`: `setImages([])`. -/
def deleteAllImages (s : Canvas) : Canvas :=
  { s with images := [] }

/-- `handleImageDrag(id, x, y)`: matching images get the new position
and `dragging := true`. -/
def handleImageDrag (id : Nat) (x y : ℚ) (s : Canvas) : Canvas :=
  { s with images := s.images.map (fun img =>
      if img.id = id then { img with x := x, y := y, dragging := true } else img) }

/-- `handleImageDragEnd(id)`: matching images get `dragging := false`. -/
def handleImageDragEnd (id : Nat) (s : Canvas) : Canvas :=
  { s with images := s.images.map (fun img =>
      if img.id = id then { img with dragging := false } else img) }

/-- The second functional update of `handleImageSelect`: toggles
`selected` on the matching image. -/
def toggleSelected (id : Nat) (s : Canvas) : Canvas :=
  { s with images := s.images.map (fun img =>
      if img.id = id then { img with selected := !img.selected } else img) }

/-- `handleImageSelect(id)` issues two functional `setImages` updates in
one handler: first clear `selected` everywhere, then toggle the target.
React applies queued functional updaters in order, so the composite is
the composition of the two. -/
def handleImageSelect (id : Nat) (s : Canvas) : Canvas :=
  toggleSelected id (unselectAllImages s)

/-- The list update of `handleImageResize`: `findIndex` locates the
first image with the id; that entry gets
`scale := newWidth / images[index].width` (the *currently stored*
width) and its `width`/`height` overwritten with the new values.
Absent id (`index === -1`) leaves the list as is. -/
def resizeFirst (id : Nat) (newW newH : ℚ) : List Image → List Image
  | [] => []
  | img :: rest =>
    if img.id = id then
      { img with width := newW, height := newH, scale := newW / img.width } :: rest
    else
      img :: resizeFirst id newW newH rest

/-- `handleImageResize(id, newWidth, newHeight)`. -/
def handleImageResize (id : Nat) (newW newH : ℚ) (s : Canvas) : Canvas :=
  { s with images := resizeFirst id newW newH s.images }

/-- The panning gesture's `onDrag` handler: if any image has
`dragging = true` it returns early; otherwise it sets the pan offset to
the gesture offset. -/
def panDrag (dx dy : ℚ) (s : Canvas) : Canvas :=
  if s.images.any (fun img => img.dragging) then s
  else { s with panX := dx, panY := dy }

/-- `handleKeyDown` on Backspace/Delete: keeps exactly the images with
`selected = false`. -/
def deleteSelected (s : Canvas) : Canvas :=
  { s with images := s.images.filter (fun img => !img.selected) }

/-- The operations a user can trigger on the canvas state. -/
inductive Op where
  | addImage (src : String) (w h : ℚ)
  | front (id : Nat)
  | back (id : Nat)
  | select (id : Nat)
  | unselectAll
  | drag (id : Nat) (x y : ℚ)
  | dragEnd (id : Nat)
  | resize (id : Nat) (w h : ℚ)
  | deleteSel
  | deleteAll
  | pan (dx dy : ℚ)

/-- Interpretation of one operation as a state transition. -/
def applyOp : Op → Canvas → Canvas
  | .addImage src w h, s => onDrop src w h s
  | .front id, s => moveToFront id s
  | .back id, s => moveToBack id s
  | .select id, s => handleImageSelect id s
  | .unselectAll, s => unselectAllImages s
  | .drag id x y, s => handleImageDrag id x y s
  | .dragEnd id, s => handleImageDragEnd id s
  | .resize id w h, s => handleImageResize id w h s
  | .deleteSel, s => deleteSelected s
  | .deleteAll, s => deleteAllImages s
  | .pan dx dy, s => panDrag dx dy s

/-- Run a sequence of operations, first one first. -/
def run : List Op → Canvas → Canvas
  | [], s => s
  | op :: ops, s => run ops (applyOp op s)

/-- A state is reachable when some operation sequence produces it from
the initial component state. -/
def Reachable (s : Canvas) : Prop :=
  ∃ ops : List Op, s = run ops initCanvas

/-- The z values an operation assigns from the top counter
(`maxZIndex.current++` sites: `onDrop` and `moveToFront`). -/
def topAssigns : Op → Canvas → List ℤ
  | .addImage _ _ _, s => [s.maxZIndex]
  | .front id, s => (bringToFront id s.images s.maxZIndex).2.2
  | _, _ => []

/-- The z values an operation assigns from the bottom counter
(`minZIndex.current--` site: `moveToBack`). -/
def botAssigns : Op → Canvas → List ℤ
  | .back id, s => (sendToBack id s.images s.minZIndex).2.2
  | _, _ => []

/-- All top-counter assignments along a run, in order. -/
def traceTop : List Op → Canvas → List ℤ
  | [], _ => []
  | op :: ops, s => topAssigns op s ++ traceTop ops (applyOp op s)

/-- All bottom-counter assignments along a run, in order. -/
def traceBot : List Op → Canvas → List ℤ
  | [], _ => []
  | op :: ops, s => botAssigns op s ++ traceBot ops (applyOp op s)

/-- Is this operation an `addImage`? -/
def isAddImage : Op → Prop
  | .addImage _ _ _ => True
  | _ => False

/-- The zIndex of the first image carrying the given id, if any. -/
def zOf (id : Nat) (s : Canvas) : Option ℤ :=
  (s.images.find? (fun img => img.id == id)).map Image.zIndex

/-- The stored dimension fields of a record. -/
def dims (img : Image) : ℚ × ℚ :=
  (img.width, img.height)

/-- State invariants maintained by every operation. -/
structure Inv (s : Canvas) : Prop where
  topPos : 1 ≤ s.maxZIndex
  botNeg : s.minZIndex ≤ -1
  zBelow : ∀ img ∈ s.images, img.zIndex < s.maxZIndex
  zAbove : ∀ img ∈ s.images, s.minZIndex < img.zIndex
  idLt : ∀ img ∈ s.images, img.id < s.nextId
  idsNodup : (s.images.map Image.id).Nodup
  selAtMostOne : (s.images.filter (fun img => img.selected)).length ≤ 1

/-- The scale of the first image carrying the given id, if any. -/
def scaleOf (id : Nat) (s : Canvas) : Option ℚ :=
  (s.images.find? (fun img => img.id == id)).map Image.scale

/-- The stored width of the first image carrying the given id, if any. -/
def widthOf (id : Nat) (s : Canvas) : Option ℚ :=
  (s.images.find? (fun img => img.id == id)).map Image.width

/-- A concrete two-drop history used to instantiate hypotheses. -/
def demoOps : List Op :=
  [Op.addImage "a" 100 100, Op.addImage "b" 200 200]

/-- The canvas reached by `demoOps`. -/
def demoCanvas : Canvas :=
  run demoOps initCanvas

/-- The second record of `demoCanvas`, spelled out. -/
def imageB : Image :=
  { id := 1, src := "b", x := 0, y := 0, width := 200, height := 200,
    dragging := false, selected := false, zIndex := 2, scale := 1 }

/-- A history ending with a `moveToBack`, so that both counters have
assigned at least one value. -/
def backOps : List Op :=
  demoOps ++ [Op.back 0]

/-- The canvas reached by `backOps`. -/
def backCanvas : Canvas :=
  run backOps initCanvas

/-- A one-drop canvas holding a single 100×100 image. -/
def smallCanvas : Canvas :=
  onDrop "a" 100 100 initCanvas

/-- The record held by `smallCanvas`. -/
def smallImage : Image :=
  { id := 0, src := "a", x := 0, y := 0, width := 100, height := 100,
    dragging := false, selected := false, zIndex := 1, scale := 1 }

/-- A one-drop canvas whose image has natural width 400. -/
def wideCanvas : Canvas :=
  onDrop "a" 400 300 initCanvas

end Imagine

namespace Imagine

/-! ## Generic list helpers -/

theorem map_map_proj {α : Type} (f : Image → α) (g : Image → Image)
    (hfg : ∀ img, f (g img) = f img) (l : List Image) :
    (l.map g).map f = l.map f := by
  rw [List.map_map]
  exact List.map_congr_left (fun img _ => hfg img)

theorem forall_mem_of_map_proj {α : Type} (f : Image → α) (P : α → Prop)
    {l l' : List Image} (hmap : l'.map f = l.map f)
    (hall : ∀ img ∈ l, P (f img)) : ∀ img' ∈ l', P (f img') := by
  intro img' hmem
  have hm : f img' ∈ l'.map f := List.mem_map_of_mem f hmem
  rw [hmap] at hm
  obtain ⟨img, hin, heq⟩ := List.mem_map.mp hm
  exact heq ▸ hall img hin

theorem map_eq_self_of (g : Image → Image) :
    ∀ l : List Image, (∀ img ∈ l, g img = img) → l.map g = l := by
  intro l h
  induction l with
  | nil => rfl
  | cons a t ih =>
    simp only [List.map_cons]
    rw [h a (List.mem_cons_self a t), ih (fun img hm => h img (List.mem_cons_of_mem a hm))]

theorem filter_sel_length_congr :
    ∀ l l' : List Image, l.map Image.selected = l'.map Image.selected →
      (l.filter (fun img => img.selected)).length
        = (l'.filter (fun img => img.selected)).length := by
  intro l
  induction l with
  | nil =>
    intro l' h
    cases l' with
    | nil => rfl
    | cons b u => simp at h
  | cons a t ih =>
    intro l' h
    cases l' with
    | nil => simp at h
    | cons b u =>
      simp only [List.map_cons, List.cons.injEq] at h
      obtain ⟨h1, h2⟩ := h
      simp only [List.filter_cons, h1]
      by_cases hb : b.selected = true
      · simp [hb, ih u h2]
      · simp [hb, ih u h2]

theorem filter_length_mono (p q : Image → Bool) (l : List Image)
    (h : ∀ img ∈ l, p img = true → q img = true) :
    (l.filter p).length ≤ (l.filter q).length := by
  rw [← List.countP_eq_length_filter, ← List.countP_eq_length_filter]
  exact List.countP_mono_left h

theorem length_filter_eq_id_le_one (id : Nat) :
    ∀ l : List Image, (l.map Image.id).Nodup →
      (l.filter (fun img => img.id == id)).length ≤ 1 := by
  intro l
  induction l with
  | nil => intro _; simp
  | cons a t ih =>
    intro h
    simp only [List.map_cons, List.nodup_cons] at h
    obtain ⟨hna, hnd⟩ := h
    by_cases ha : a.id = id
    · have ht : t.filter (fun img => img.id == id) = [] := by
        rw [List.filter_eq_nil_iff]
        intro img hm himg
        apply hna
        have hi : img.id = id := by simpa using himg
        rw [ha, ← hi]
        exact List.mem_map_of_mem Image.id hm
      have hab : (a.id == id) = true := by simpa using ha
      simp [List.filter_cons, hab, ht]
    · have hab : (a.id == id) = false := by simpa using ha
      simp only [List.filter_cons, hab]
      simpa using ih hnd

/-! ## Lemmas about `bringToFront` -/

theorem bringToFront_map_eq {α : Type} (id : Nat) (f : Image → α)
    (hf : ∀ (img : Image) (z : ℤ), f { img with zIndex := z } = f img) :
    ∀ (l : List Image) (z : ℤ), ((bringToFront id l z).1).map f = l.map f := by
  intro l
  induction l with
  | nil => intro z; rfl
  | cons img rest ih =>
    intro z
    by_cases h : img.id = id
    · simp only [bringToFront, if_pos h, List.map_cons]
      rw [hf, ih]
    · simp only [bringToFront, if_neg h, List.map_cons]
      rw [ih]

theorem bringToFront_counter (id : Nat) :
    ∀ (l : List Image) (z : ℤ),
      (bringToFront id l z).2.1 = z + ((bringToFront id l z).2.2).length := by
  intro l
  induction l with
  | nil => intro z; simp [bringToFront]
  | cons img rest ih =>
    intro z
    by_cases h : img.id = id
    · simp only [bringToFront, if_pos h, List.length_cons]
      rw [ih (z + 1)]
      push_cast
      ring
    · simp only [bringToFront, if_neg h]
      exact ih z

theorem bringToFront_counter_le (id : Nat) (l : List Image) (z : ℤ) :
    z ≤ (bringToFront id l z).2.1 := by
  rw [bringToFront_counter]
  omega

theorem bringToFront_assigns_bound (id : Nat) :
    ∀ (l : List Image) (z : ℤ), ∀ a ∈ (bringToFront id l z).2.2,
      z ≤ a ∧ a < (bringToFront id l z).2.1 := by
  intro l
  induction l with
  | nil => intro z a ha; simp [bringToFront] at ha
  | cons img rest ih =>
    intro z a ha
    by_cases h : img.id = id
    · simp only [bringToFront, if_pos h] at ha ⊢
      rcases List.mem_cons.mp ha with rfl | hmem
      · refine ⟨le_refl a, ?_⟩
        have hc := bringToFront_counter_le id rest (a + 1)
        omega
      · have hb := ih (z + 1) a hmem
        exact ⟨by omega, hb.2⟩
    · simp only [bringToFront, if_neg h] at ha ⊢
      exact ih z a ha

theorem bringToFront_assigns_pairwise (id : Nat) :
    ∀ (l : List Image) (z : ℤ), List.Pairwise (· < ·) (bringToFront id l z).2.2 := by
  intro l
  induction l with
  | nil => intro z; simp [bringToFront]
  | cons img rest ih =>
    intro z
    by_cases h : img.id = id
    · simp only [bringToFront, if_pos h]
      refine List.Pairwise.cons ?_ (ih (z + 1))
      intro a ha
      have hb := bringToFront_assigns_bound id rest (z + 1) a ha
      omega
    · simp only [bringToFront, if_neg h]
      exact ih z

theorem bringToFront_assigns_head (id : Nat) :
    ∀ (l : List Image) (z a : ℤ) (as : List ℤ),
      (bringToFront id l z).2.2 = a :: as → a = z := by
  intro l
  induction l with
  | nil => intro z a as h; simp [bringToFront] at h
  | cons img rest ih =>
    intro z a as h
    by_cases hid : img.id = id
    · simp only [bringToFront, if_pos hid] at h
      injection h with h1 _
      exact h1.symm
    · simp only [bringToFront, if_neg hid] at h
      exact ih z a as h

theorem bringToFront_of_absent (id : Nat) :
    ∀ (l : List Image) (z : ℤ), (∀ img ∈ l, img.id ≠ id) →
      bringToFront id l z = (l, z, []) := by
  intro l
  induction l with
  | nil => intro z _; rfl
  | cons img rest ih =>
    intro z h
    have hid : img.id ≠ id := h img (List.mem_cons_self img rest)
    simp only [bringToFront, if_neg hid]
    rw [ih z (fun i hi => h i (List.mem_cons_of_mem img hi))]

theorem bringToFront_mem (id : Nat) :
    ∀ (l : List Image) (z : ℤ), ∀ img' ∈ (bringToFront id l z).1,
      img' ∈ l ∨ (img'.id = id ∧ z ≤ img'.zIndex
        ∧ img'.zIndex < (bringToFront id l z).2.1) := by
  intro l
  induction l with
  | nil => intro z img' h; simp [bringToFront] at h
  | cons img rest ih =>
    intro z img' h
    by_cases hid : img.id = id
    · simp only [bringToFront, if_pos hid] at h ⊢
      rcases List.mem_cons.mp h with rfl | hmem
      · right
        have hc := bringToFront_counter_le id rest (z + 1)
        exact ⟨hid, le_refl z, by show z < _; omega⟩
      · rcases ih (z + 1) img' hmem with hin | ⟨hid', hle, hlt⟩
        · exact Or.inl (List.mem_cons_of_mem img hin)
        · exact Or.inr ⟨hid', by omega, hlt⟩
    · simp only [bringToFront, if_neg hid] at h ⊢
      rcases List.mem_cons.mp h with rfl | hmem
      · exact Or.inl (List.mem_cons_self img' rest)
      · rcases ih z img' hmem with hin | hprop
        · exact Or.inl (List.mem_cons_of_mem img hin)
        · exact Or.inr hprop

theorem bringToFront_find? (id : Nat) :
    ∀ (l : List Image) (z : ℤ), l.any (fun img => img.id == id) = true →
      (((bringToFront id l z).1).find? (fun img => img.id == id)).map Image.zIndex
        = some z := by
  intro l
  induction l with
  | nil => intro z h; simp at h
  | cons img rest ih =>
    intro z h
    by_cases hid : img.id = id
    · simp only [bringToFront, if_pos hid]
      rw [List.find?_cons_of_pos _ (by simpa using hid)]
      rfl
    · simp only [bringToFront, if_neg hid]
      rw [List.find?_cons_of_neg _ (by simpa using hid)]
      have h' : rest.any (fun img => img.id == id) = true := by
        simpa [hid] using h
      exact ih z h'

theorem bringToFront_counter_lt (id : Nat) :
    ∀ (l : List Image) (z : ℤ), l.any (fun img => img.id == id) = true →
      z < (bringToFront id l z).2.1 := by
  intro l
  induction l with
  | nil => intro z h; simp at h
  | cons img rest ih =>
    intro z h
    by_cases hid : img.id = id
    · simp only [bringToFront, if_pos hid]
      have hc := bringToFront_counter_le id rest (z + 1)
      show z < _
      omega
    · simp only [bringToFront, if_neg hid]
      have h' : rest.any (fun img => img.id == id) = true := by
        simpa [hid] using h
      exact ih z h'

end Imagine

namespace Imagine

/-! ## Lemmas about `sendToBack` -/

theorem sendToBack_map_eq {α : Type} (id : Nat) (f : Image → α)
    (hf : ∀ (img : Image) (z : ℤ), f { img with zIndex := z } = f img) :
    ∀ (l : List Image) (z : ℤ), ((sendToBack id l z).1).map f = l.map f := by
  intro l
  induction l with
  | nil => intro z; rfl
  | cons img rest ih =>
    intro z
    by_cases h : img.id = id
    · simp only [sendToBack, if_pos h, List.map_cons]
      rw [hf, ih]
    · simp only [sendToBack, if_neg h, List.map_cons]
      rw [ih]

theorem sendToBack_counter (id : Nat) :
    ∀ (l : List Image) (z : ℤ),
      (sendToBack id l z).2.1 = z - ((sendToBack id l z).2.2).length := by
  intro l
  induction l with
  | nil => intro z; simp [sendToBack]
  | cons img rest ih =>
    intro z
    by_cases h : img.id = id
    · simp only [sendToBack, if_pos h, List.length_cons]
      rw [ih (z - 1)]
      push_cast
      ring
    · simp only [sendToBack, if_neg h]
      exact ih z

theorem sendToBack_counter_le (id : Nat) (l : List Image) (z : ℤ) :
    (sendToBack id l z).2.1 ≤ z := by
  rw [sendToBack_counter]
  omega

theorem sendToBack_assigns_bound (id : Nat) :
    ∀ (l : List Image) (z : ℤ), ∀ a ∈ (sendToBack id l z).2.2,
      (sendToBack id l z).2.1 < a ∧ a ≤ z := by
  intro l
  induction l with
  | nil => intro z a ha; simp [sendToBack] at ha
  | cons img rest ih =>
    intro z a ha
    by_cases h : img.id = id
    · simp only [sendToBack, if_pos h] at ha ⊢
      rcases List.mem_cons.mp ha with rfl | hmem
      · refine ⟨?_, le_refl a⟩
        have hc := sendToBack_counter_le id rest (a - 1)
        omega
      · have hb := ih (z - 1) a hmem
        exact ⟨hb.1, by omega⟩
    · simp only [sendToBack, if_neg h] at ha ⊢
      exact ih z a ha

theorem sendToBack_of_absent (id : Nat) :
    ∀ (l : List Image) (z : ℤ), (∀ img ∈ l, img.id ≠ id) →
      sendToBack id l z = (l, z, []) := by
  intro l
  induction l with
  | nil => intro z _; rfl
  | cons img rest ih =>
    intro z h
    have hid : img.id ≠ id := h img (List.mem_cons_self img rest)
    simp only [sendToBack, if_neg hid]
    rw [ih z (fun i hi => h i (List.mem_cons_of_mem img hi))]

theorem sendToBack_mem (id : Nat) :
    ∀ (l : List Image) (z : ℤ), ∀ img' ∈ (sendToBack id l z).1,
      img' ∈ l ∨ (img'.id = id ∧ (sendToBack id l z).2.1 < img'.zIndex
        ∧ img'.zIndex ≤ z) := by
  intro l
  induction l with
  | nil => intro z img' h; simp [sendToBack] at h
  | cons img rest ih =>
    intro z img' h
    by_cases hid : img.id = id
    · simp only [sendToBack, if_pos hid] at h ⊢
      rcases List.mem_cons.mp h with rfl | hmem
      · right
        have hc := sendToBack_counter_le id rest (z - 1)
        exact ⟨hid, by show _ < z; omega, le_refl z⟩
      · rcases ih (z - 1) img' hmem with hin | ⟨hid', hlt, hle⟩
        · exact Or.inl (List.mem_cons_of_mem img hin)
        · exact Or.inr ⟨hid', hlt, by omega⟩
    · simp only [sendToBack, if_neg hid] at h ⊢
      rcases List.mem_cons.mp h with rfl | hmem
      · exact Or.inl (List.mem_cons_self img' rest)
      · rcases ih z img' hmem with hin | hprop
        · exact Or.inl (List.mem_cons_of_mem img hin)
        · exact Or.inr hprop

/-! ## Lemmas about `resizeFirst` -/

theorem resizeFirst_map_eq {α : Type} (id : Nat) (nw nh : ℚ) (f : Image → α)
    (hf : ∀ (img : Image) (w h sc : ℚ),
      f { img with width := w, height := h, scale := sc } = f img) :
    ∀ l : List Image, (resizeFirst id nw nh l).map f = l.map f := by
  intro l
  induction l with
  | nil => rfl
  | cons img rest ih =>
    by_cases h : img.id = id
    · simp only [resizeFirst, if_pos h, List.map_cons]
      rw [hf]
    · simp only [resizeFirst, if_neg h, List.map_cons]
      rw [ih]

theorem resizeFirst_of_absent (id : Nat) (nw nh : ℚ) :
    ∀ l : List Image, (∀ img ∈ l, img.id ≠ id) → resizeFirst id nw nh l = l := by
  intro l
  induction l with
  | nil => intro _; rfl
  | cons img rest ih =>
    intro h
    have hid : img.id ≠ id := h img (List.mem_cons_self img rest)
    simp only [resizeFirst, if_neg hid]
    rw [ih (fun i hi => h i (List.mem_cons_of_mem img hi))]

theorem resizeFirst_mem (id : Nat) (nw nh : ℚ) :
    ∀ l : List Image, ∀ img' ∈ resizeFirst id nw nh l,
      img' ∈ l ∨ ∃ img ∈ l,
        img' = { img with width := nw, height := nh, scale := nw / img.width } := by
  intro l
  induction l with
  | nil => intro img' h; simp [resizeFirst] at h
  | cons img rest ih =>
    intro img' h
    by_cases hid : img.id = id
    · simp only [resizeFirst, if_pos hid] at h
      rcases List.mem_cons.mp h with rfl | hmem
      · exact Or.inr ⟨img, List.mem_cons_self img rest, rfl⟩
      · exact Or.inl (List.mem_cons_of_mem img hmem)
    · simp only [resizeFirst, if_neg hid] at h
      rcases List.mem_cons.mp h with rfl | hmem
      · exact Or.inl (List.mem_cons_self img' rest)
      · rcases ih img' hmem with hin | ⟨i, hi, heq⟩
        · exact Or.inl (List.mem_cons_of_mem img hin)
        · exact Or.inr ⟨i, List.mem_cons_of_mem img hi, heq⟩

theorem resizeFirst_find? (id : Nat) (nw nh : ℚ) :
    ∀ l : List Image,
      (resizeFirst id nw nh l).find? (fun img => img.id == id)
        = (l.find? (fun img => img.id == id)).map
            (fun img => { img with width := nw, height := nh, scale := nw / img.width }) := by
  intro l
  induction l with
  | nil => rfl
  | cons img rest ih =>
    by_cases h : img.id = id
    · simp only [resizeFirst, if_pos h]
      rw [List.find?_cons_of_pos, List.find?_cons_of_pos]
      · rfl
      · simpa using h
      · simpa using h
    · have hb : (img.id == id) = false := by simpa using h
      simp only [resizeFirst, if_neg h]
      rw [List.find?_cons_of_neg _ (by simpa using h), List.find?_cons_of_neg _ (by simpa using h)]
      exact ih

/-! ## Characterization of selection -/

theorem handleImageSelect_eq (id : Nat) (s : Canvas) :
    handleImageSelect id s
      = { s with images := s.images.map (fun img =>
          { img with selected := decide (img.id = id) }) } := by
  unfold handleImageSelect toggleSelected unselectAllImages
  simp only [List.map_map]
  congr 1
  apply List.map_congr_left
  intro img _
  by_cases h : img.id = id
  · simp [Function.comp, h]
  · simp [Function.comp, h]

end Imagine

namespace Imagine

/-! ## Invariant preservation -/

theorem inv_of_proj {s : Canvas} (hs : Inv s) (l' : List Image)
    (hid : l'.map Image.id = s.images.map Image.id)
    (hsel : l'.map Image.selected = s.images.map Image.selected)
    (hz : l'.map Image.zIndex = s.images.map Image.zIndex) :
    Inv { s with images := l' } := by
  obtain ⟨h1, h2, h3, h4, h5, h6, h7⟩ := hs
  refine ⟨h1, h2, ?_, ?_, ?_, ?_, ?_⟩
  · exact forall_mem_of_map_proj Image.zIndex (fun a => a < s.maxZIndex) hz h3
  · exact forall_mem_of_map_proj Image.zIndex (fun a => s.minZIndex < a) hz h4
  · exact forall_mem_of_map_proj Image.id (fun a => a < s.nextId) hid h5
  · show (l'.map Image.id).Nodup
    rw [hid]
    exact h6
  · show (l'.filter (fun img => img.selected)).length ≤ 1
    rw [filter_sel_length_congr l' s.images hsel]
    exact h7

theorem inv_onDrop (src : String) (w h : ℚ) {s : Canvas} (hs : Inv s) :
    Inv (onDrop src w h s) := by
  obtain ⟨h1, h2, h3, h4, h5, h6, h7⟩ := hs
  refine ⟨?_, h2, ?_, ?_, ?_, ?_, ?_⟩
  · show (1 : ℤ) ≤ s.maxZIndex + 1
    omega
  · intro img hmem
    show img.zIndex < s.maxZIndex + 1
    rcases List.mem_append.mp hmem with hold | hnew
    · have := h3 img hold
      omega
    · rcases List.mem_singleton.mp hnew with rfl
      show s.maxZIndex < s.maxZIndex + 1
      omega
  · intro img hmem
    show s.minZIndex < img.zIndex
    rcases List.mem_append.mp hmem with hold | hnew
    · exact h4 img hold
    · rcases List.mem_singleton.mp hnew with rfl
      show s.minZIndex < s.maxZIndex
      omega
  · intro img hmem
    show img.id < s.nextId + 1
    rcases List.mem_append.mp hmem with hold | hnew
    · have := h5 img hold
      omega
    · rcases List.mem_singleton.mp hnew with rfl
      show s.nextId < s.nextId + 1
      omega
  · show ((s.images ++ [newImage src w h s]).map Image.id).Nodup
    rw [List.map_append]
    rw [List.nodup_append]
    refine ⟨h6, List.nodup_singleton _, ?_⟩
    intro a ha hb
    rcases List.mem_singleton.mp hb with rfl
    obtain ⟨img, hin, hida⟩ := List.mem_map.mp ha
    have := h5 img hin
    have hna : (newImage src w h s).id = s.nextId := rfl
    omega
  · show ((s.images ++ [newImage src w h s]).filter (fun img => img.selected)).length ≤ 1
    rw [List.filter_append]
    simpa [newImage] using h7

theorem inv_moveToFront (id : Nat) {s : Canvas} (hs : Inv s) :
    Inv (moveToFront id s) := by
  obtain ⟨h1, h2, h3, h4, h5, h6, h7⟩ := hs
  have hid := bringToFront_map_eq id Image.id (fun _ _ => rfl) s.images s.maxZIndex
  have hsel := bringToFront_map_eq id Image.selected (fun _ _ => rfl) s.images s.maxZIndex
  have hle := bringToFront_counter_le id s.images s.maxZIndex
  refine ⟨?_, h2, ?_, ?_, ?_, ?_, ?_⟩
  · show (1 : ℤ) ≤ (bringToFront id s.images s.maxZIndex).2.1
    omega
  · intro img hmem
    show img.zIndex < (bringToFront id s.images s.maxZIndex).2.1
    rcases bringToFront_mem id s.images s.maxZIndex img hmem with hin | ⟨_, _, hlt⟩
    · have := h3 img hin
      omega
    · exact hlt
  · intro img hmem
    show s.minZIndex < img.zIndex
    rcases bringToFront_mem id s.images s.maxZIndex img hmem with hin | ⟨_, hge, _⟩
    · exact h4 img hin
    · omega
  · exact forall_mem_of_map_proj Image.id (fun a => a < s.nextId) hid h5
  · show (((bringToFront id s.images s.maxZIndex).1).map Image.id).Nodup
    rw [hid]
    exact h6
  · show (((bringToFront id s.images s.maxZIndex).1).filter
      (fun img => img.selected)).length ≤ 1
    rw [filter_sel_length_congr _ s.images hsel]
    exact h7

theorem inv_moveToBack (id : Nat) {s : Canvas} (hs : Inv s) :
    Inv (moveToBack id s) := by
  obtain ⟨h1, h2, h3, h4, h5, h6, h7⟩ := hs
  have hid := sendToBack_map_eq id Image.id (fun _ _ => rfl) s.images s.minZIndex
  have hsel := sendToBack_map_eq id Image.selected (fun _ _ => rfl) s.images s.minZIndex
  have hle := sendToBack_counter_le id s.images s.minZIndex
  refine ⟨h1, ?_, ?_, ?_, ?_, ?_, ?_⟩
  · show (sendToBack id s.images s.minZIndex).2.1 ≤ -1
    omega
  · intro img hmem
    show img.zIndex < s.maxZIndex
    rcases sendToBack_mem id s.images s.minZIndex img hmem with hin | ⟨_, _, hle'⟩
    · exact h3 img hin
    · omega
  · intro img hmem
    show (sendToBack id s.images s.minZIndex).2.1 < img.zIndex
    rcases sendToBack_mem id s.images s.minZIndex img hmem with hin | ⟨_, hgt, _⟩
    · have := h4 img hin
      omega
    · exact hgt
  · exact forall_mem_of_map_proj Image.id (fun a => a < s.nextId) hid h5
  · show (((sendToBack id s.images s.minZIndex).1).map Image.id).Nodup
    rw [hid]
    exact h6
  · show (((sendToBack id s.images s.minZIndex).1).filter
      (fun img => img.selected)).length ≤ 1
    rw [filter_sel_length_congr _ s.images hsel]
    exact h7

theorem inv_handleImageSelect (id : Nat) {s : Canvas} (hs : Inv s) :
    Inv (handleImageSelect id s) := by
  rw [handleImageSelect_eq]
  obtain ⟨h1, h2, h3, h4, h5, h6, h7⟩ := hs
  have hid : (s.images.map (fun img =>
      { img with selected := decide (img.id = id) })).map Image.id
        = s.images.map Image.id :=
    map_map_proj Image.id (fun img => { img with selected := decide (img.id = id) })
      (fun img => rfl) s.images
  have hz : (s.images.map (fun img =>
      { img with selected := decide (img.id = id) })).map Image.zIndex
        = s.images.map Image.zIndex :=
    map_map_proj Image.zIndex (fun img => { img with selected := decide (img.id = id) })
      (fun img => rfl) s.images
  refine ⟨h1, h2, ?_, ?_, ?_, ?_, ?_⟩
  · exact forall_mem_of_map_proj Image.zIndex (fun a => a < s.maxZIndex) hz h3
  · exact forall_mem_of_map_proj Image.zIndex (fun a => s.minZIndex < a) hz h4
  · exact forall_mem_of_map_proj Image.id (fun a => a < s.nextId) hid h5
  · show ((s.images.map _).map Image.id).Nodup
    rw [hid]
    exact h6
  · have hnd : ((s.images.map (fun img =>
        { img with selected := decide (img.id = id) })).map Image.id).Nodup := by
      rw [hid]
      exact h6
    have hmono : ∀ img ∈ s.images.map (fun img =>
        { img with selected := decide (img.id = id) }),
        img.selected = true → (img.id == id) = true := by
      intro img hmem hsel
      obtain ⟨i, hi, rfl⟩ := List.mem_map.mp hmem
      simpa using hsel
    calc ((s.images.map (fun img =>
            { img with selected := decide (img.id = id) })).filter
              (fun img => img.selected)).length
        ≤ ((s.images.map (fun img =>
            { img with selected := decide (img.id = id) })).filter
              (fun img => img.id == id)).length :=
          filter_length_mono _ _ _ hmono
      _ ≤ 1 := length_filter_eq_id_le_one id _ hnd

theorem inv_unselectAllImages {s : Canvas} (hs : Inv s) :
    Inv (unselectAllImages s) := by
  obtain ⟨h1, h2, h3, h4, h5, h6, h7⟩ := hs
  have hid : (s.images.map (fun img => { img with selected := false })).map Image.id
      = s.images.map Image.id :=
    map_map_proj Image.id (fun img => { img with selected := false })
      (fun img => rfl) s.images
  have hz : (s.images.map (fun img => { img with selected := false })).map Image.zIndex
      = s.images.map Image.zIndex :=
    map_map_proj Image.zIndex (fun img => { img with selected := false })
      (fun img => rfl) s.images
  refine ⟨h1, h2, ?_, ?_, ?_, ?_, ?_⟩
  · exact forall_mem_of_map_proj Image.zIndex (fun a => a < s.maxZIndex) hz h3
  · exact forall_mem_of_map_proj Image.zIndex (fun a => s.minZIndex < a) hz h4
  · exact forall_mem_of_map_proj Image.id (fun a => a < s.nextId) hid h5
  · show ((s.images.map _).map Image.id).Nodup
    rw [hid]
    exact h6
  · have hnil : (s.images.map (fun img => { img with selected := false })).filter
        (fun img => img.selected) = [] := by
      rw [List.filter_eq_nil_iff]
      intro img hmem
      obtain ⟨i, hi, rfl⟩ := List.mem_map.mp hmem
      simp
    show ((s.images.map (fun img => { img with selected := false })).filter
        (fun img => img.selected)).length ≤ 1
    rw [hnil]
    simp

theorem inv_handleImageDrag (id : Nat) (x y : ℚ) {s : Canvas} (hs : Inv s) :
    Inv (handleImageDrag id x y s) := by
  refine inv_of_proj hs (s.images.map (fun img =>
    if img.id = id then { img with x := x, y := y, dragging := true } else img)) ?_ ?_ ?_
  · exact map_map_proj Image.id (fun img =>
      if img.id = id then { img with x := x, y := y, dragging := true } else img)
      (fun img => by by_cases h : img.id = id <;> simp [h]) s.images
  · exact map_map_proj Image.selected (fun img =>
      if img.id = id then { img with x := x, y := y, dragging := true } else img)
      (fun img => by by_cases h : img.id = id <;> simp [h]) s.images
  · exact map_map_proj Image.zIndex (fun img =>
      if img.id = id then { img with x := x, y := y, dragging := true } else img)
      (fun img => by by_cases h : img.id = id <;> simp [h]) s.images

theorem inv_handleImageDragEnd (id : Nat) {s : Canvas} (hs : Inv s) :
    Inv (handleImageDragEnd id s) := by
  refine inv_of_proj hs (s.images.map (fun img =>
    if img.id = id then { img with dragging := false } else img)) ?_ ?_ ?_
  · exact map_map_proj Image.id (fun img =>
      if img.id = id then { img with dragging := false } else img)
      (fun img => by by_cases h : img.id = id <;> simp [h]) s.images
  · exact map_map_proj Image.selected (fun img =>
      if img.id = id then { img with dragging := false } else img)
      (fun img => by by_cases h : img.id = id <;> simp [h]) s.images
  · exact map_map_proj Image.zIndex (fun img =>
      if img.id = id then { img with dragging := false } else img)
      (fun img => by by_cases h : img.id = id <;> simp [h]) s.images

theorem inv_handleImageResize (id : Nat) (nw nh : ℚ) {s : Canvas} (hs : Inv s) :
    Inv (handleImageResize id nw nh s) := by
  refine inv_of_proj hs (resizeFirst id nw nh s.images) ?_ ?_ ?_
  · exact resizeFirst_map_eq id nw nh Image.id (fun _ _ _ _ => rfl) s.images
  · exact resizeFirst_map_eq id nw nh Image.selected (fun _ _ _ _ => rfl) s.images
  · exact resizeFirst_map_eq id nw nh Image.zIndex (fun _ _ _ _ => rfl) s.images

theorem inv_deleteSelected {s : Canvas} (hs : Inv s) :
    Inv (deleteSelected s) := by
  obtain ⟨h1, h2, h3, h4, h5, h6, h7⟩ := hs
  have hsub : (s.images.filter (fun img => !img.selected)).Sublist s.images :=
    List.filter_sublist s.images
  refine ⟨h1, h2, ?_, ?_, ?_, ?_, ?_⟩
  · intro img hmem
    exact h3 img (List.mem_of_mem_filter hmem)
  · intro img hmem
    exact h4 img (List.mem_of_mem_filter hmem)
  · intro img hmem
    exact h5 img (List.mem_of_mem_filter hmem)
  · exact List.Nodup.sublist (hsub.map Image.id) h6
  · have hnil : ((s.images.filter (fun img => !img.selected)).filter
        (fun img => img.selected)) = [] := by
      rw [List.filter_eq_nil_iff]
      intro img hmem hsel
      have := List.of_mem_filter hmem
      simp_all
    show ((s.images.filter (fun img => !img.selected)).filter
        (fun img => img.selected)).length ≤ 1
    rw [hnil]
    simp

theorem inv_deleteAllImages {s : Canvas} (hs : Inv s) :
    Inv (deleteAllImages s) := by
  obtain ⟨h1, h2, _, _, _, _, _⟩ := hs
  refine ⟨h1, h2, ?_, ?_, ?_, ?_, ?_⟩ <;> simp [deleteAllImages]

theorem inv_panDrag (dx dy : ℚ) {s : Canvas} (hs : Inv s) :
    Inv (panDrag dx dy s) := by
  unfold panDrag
  split
  · exact hs
  · obtain ⟨h1, h2, h3, h4, h5, h6, h7⟩ := hs
    exact ⟨h1, h2, h3, h4, h5, h6, h7⟩

theorem inv_applyOp (op : Op) {s : Canvas} (hs : Inv s) : Inv (applyOp op s) := by
  cases op with
  | addImage src w h => exact inv_onDrop src w h hs
  | front id => exact inv_moveToFront id hs
  | back id => exact inv_moveToBack id hs
  | select id => exact inv_handleImageSelect id hs
  | unselectAll => exact inv_unselectAllImages hs
  | drag id x y => exact inv_handleImageDrag id x y hs
  | dragEnd id => exact inv_handleImageDragEnd id hs
  | resize id w h => exact inv_handleImageResize id w h hs
  | deleteSel => exact inv_deleteSelected hs
  | deleteAll => exact inv_deleteAllImages hs
  | pan dx dy => exact inv_panDrag dx dy hs

theorem inv_run (ops : List Op) : ∀ s : Canvas, Inv s → Inv (run ops s) := by
  induction ops with
  | nil => intro s hs; exact hs
  | cons op rest ih => intro s hs; exact ih (applyOp op s) (inv_applyOp op hs)

theorem inv_initCanvas : Inv initCanvas := by
  refine ⟨?_, ?_, ?_, ?_, ?_, ?_, ?_⟩ <;> simp [initCanvas]

theorem reachable_inv {s : Canvas} (hs : Reachable s) : Inv s := by
  obtain ⟨ops, rfl⟩ := hs
  exact inv_run ops initCanvas inv_initCanvas

end Imagine

namespace Imagine

/-! ## Counter and assignment-trace lemmas -/

theorem applyOp_maxZIndex (op : Op) (s : Canvas) :
    (applyOp op s).maxZIndex = s.maxZIndex + (topAssigns op s).length := by
  cases op with
  | addImage src w h => simp [applyOp, onDrop, topAssigns]
  | front id =>
    show (bringToFront id s.images s.maxZIndex).2.1 = _
    rw [bringToFront_counter]
    rfl
  | back id => simp [applyOp, moveToBack, topAssigns]
  | select id => simp [applyOp, handleImageSelect, toggleSelected, unselectAllImages, topAssigns]
  | unselectAll => simp [applyOp, unselectAllImages, topAssigns]
  | drag id x y => simp [applyOp, handleImageDrag, topAssigns]
  | dragEnd id => simp [applyOp, handleImageDragEnd, topAssigns]
  | resize id w h => simp [applyOp, handleImageResize, topAssigns]
  | deleteSel => simp [applyOp, deleteSelected, topAssigns]
  | deleteAll => simp [applyOp, deleteAllImages, topAssigns]
  | pan dx dy =>
    show (panDrag dx dy s).maxZIndex = _
    unfold panDrag
    split <;> simp [topAssigns]

theorem applyOp_minZIndex (op : Op) (s : Canvas) :
    (applyOp op s).minZIndex = s.minZIndex - (botAssigns op s).length := by
  cases op with
  | addImage src w h => simp [applyOp, onDrop, botAssigns]
  | front id => simp [applyOp, moveToFront, botAssigns]
  | back id =>
    show (sendToBack id s.images s.minZIndex).2.1 = _
    rw [sendToBack_counter]
    rfl
  | select id => simp [applyOp, handleImageSelect, toggleSelected, unselectAllImages, botAssigns]
  | unselectAll => simp [applyOp, unselectAllImages, botAssigns]
  | drag id x y => simp [applyOp, handleImageDrag, botAssigns]
  | dragEnd id => simp [applyOp, handleImageDragEnd, botAssigns]
  | resize id w h => simp [applyOp, handleImageResize, botAssigns]
  | deleteSel => simp [applyOp, deleteSelected, botAssigns]
  | deleteAll => simp [applyOp, deleteAllImages, botAssigns]
  | pan dx dy =>
    show (panDrag dx dy s).minZIndex = _
    unfold panDrag
    split <;> simp [botAssigns]

theorem applyOp_maxZIndex_le (op : Op) (s : Canvas) :
    s.maxZIndex ≤ (applyOp op s).maxZIndex := by
  rw [applyOp_maxZIndex]
  omega

theorem applyOp_minZIndex_le (op : Op) (s : Canvas) :
    (applyOp op s).minZIndex ≤ s.minZIndex := by
  rw [applyOp_minZIndex]
  omega

theorem run_maxZIndex (ops : List Op) :
    ∀ s : Canvas, (run ops s).maxZIndex = s.maxZIndex + (traceTop ops s).length := by
  induction ops with
  | nil => intro s; simp [run, traceTop]
  | cons op rest ih =>
    intro s
    show (run rest (applyOp op s)).maxZIndex = _
    rw [ih (applyOp op s), applyOp_maxZIndex]
    show _ = s.maxZIndex + ((topAssigns op s ++ traceTop rest (applyOp op s)).length : ℤ)
    rw [List.length_append]
    push_cast
    ring

theorem run_minZIndex (ops : List Op) :
    ∀ s : Canvas, (run ops s).minZIndex = s.minZIndex - (traceBot ops s).length := by
  induction ops with
  | nil => intro s; simp [run, traceBot]
  | cons op rest ih =>
    intro s
    show (run rest (applyOp op s)).minZIndex = _
    rw [ih (applyOp op s), applyOp_minZIndex]
    show _ = s.minZIndex - ((botAssigns op s ++ traceBot rest (applyOp op s)).length : ℤ)
    rw [List.length_append]
    push_cast
    ring

theorem run_maxZIndex_le (ops : List Op) (s : Canvas) :
    s.maxZIndex ≤ (run ops s).maxZIndex := by
  rw [run_maxZIndex]
  omega

theorem run_minZIndex_le (ops : List Op) (s : Canvas) :
    (run ops s).minZIndex ≤ s.minZIndex := by
  rw [run_minZIndex]
  omega

theorem topAssigns_bound (op : Op) (s : Canvas) :
    ∀ a ∈ topAssigns op s, s.maxZIndex ≤ a ∧ a < (applyOp op s).maxZIndex := by
  intro a ha
  cases op with
  | addImage src w h =>
    rcases List.mem_singleton.mp ha with rfl
    refine ⟨le_refl _, ?_⟩
    show s.maxZIndex < s.maxZIndex + 1
    omega
  | front id =>
    exact bringToFront_assigns_bound id s.images s.maxZIndex a ha
  | back id => simp [topAssigns] at ha
  | select id => simp [topAssigns] at ha
  | unselectAll => simp [topAssigns] at ha
  | drag id x y => simp [topAssigns] at ha
  | dragEnd id => simp [topAssigns] at ha
  | resize id w h => simp [topAssigns] at ha
  | deleteSel => simp [topAssigns] at ha
  | deleteAll => simp [topAssigns] at ha
  | pan dx dy => simp [topAssigns] at ha

theorem botAssigns_le (op : Op) (s : Canvas) :
    ∀ a ∈ botAssigns op s, a ≤ s.minZIndex := by
  intro a ha
  cases op with
  | back id => exact (sendToBack_assigns_bound id s.images s.minZIndex a ha).2
  | addImage src w h => simp [botAssigns] at ha
  | front id => simp [botAssigns] at ha
  | select id => simp [botAssigns] at ha
  | unselectAll => simp [botAssigns] at ha
  | drag id x y => simp [botAssigns] at ha
  | dragEnd id => simp [botAssigns] at ha
  | resize id w h => simp [botAssigns] at ha
  | deleteSel => simp [botAssigns] at ha
  | deleteAll => simp [botAssigns] at ha
  | pan dx dy => simp [botAssigns] at ha

theorem topAssigns_pairwise (op : Op) (s : Canvas) :
    List.Pairwise (· < ·) (topAssigns op s) := by
  cases op with
  | addImage src w h => simp [topAssigns]
  | front id => exact bringToFront_assigns_pairwise id s.images s.maxZIndex
  | back id => simp [topAssigns]
  | select id => simp [topAssigns]
  | unselectAll => simp [topAssigns]
  | drag id x y => simp [topAssigns]
  | dragEnd id => simp [topAssigns]
  | resize id w h => simp [topAssigns]
  | deleteSel => simp [topAssigns]
  | deleteAll => simp [topAssigns]
  | pan dx dy => simp [topAssigns]

theorem topAssigns_head (op : Op) (s : Canvas) (a : ℤ) (as : List ℤ)
    (h : topAssigns op s = a :: as) : a = s.maxZIndex := by
  cases op with
  | addImage src w h =>
    injection h with h1 _
    exact h1.symm
  | front id => exact bringToFront_assigns_head id s.images s.maxZIndex a as h
  | back id => simp [topAssigns] at h
  | select id => simp [topAssigns] at h
  | unselectAll => simp [topAssigns] at h
  | drag id x y => simp [topAssigns] at h
  | dragEnd id => simp [topAssigns] at h
  | resize id w h => simp [topAssigns] at h
  | deleteSel => simp [topAssigns] at h
  | deleteAll => simp [topAssigns] at h
  | pan dx dy => simp [topAssigns] at h

theorem traceTop_lb (ops : List Op) :
    ∀ s : Canvas, ∀ a ∈ traceTop ops s, s.maxZIndex ≤ a := by
  induction ops with
  | nil => intro s a ha; simp [traceTop] at ha
  | cons op rest ih =>
    intro s a ha
    rcases List.mem_append.mp ha with hop | hrest
    · exact (topAssigns_bound op s a hop).1
    · have h1 := ih (applyOp op s) a hrest
      have h2 := applyOp_maxZIndex_le op s
      omega

theorem traceTop_ub (ops : List Op) :
    ∀ s : Canvas, ∀ a ∈ traceTop ops s, a < (run ops s).maxZIndex := by
  induction ops with
  | nil => intro s a ha; simp [traceTop] at ha
  | cons op rest ih =>
    intro s a ha
    show a < (run rest (applyOp op s)).maxZIndex
    rcases List.mem_append.mp ha with hop | hrest
    · have h1 := (topAssigns_bound op s a hop).2
      have h2 := run_maxZIndex_le rest (applyOp op s)
      omega
    · exact ih (applyOp op s) a hrest

theorem traceBot_ub (ops : List Op) :
    ∀ s : Canvas, ∀ a ∈ traceBot ops s, a ≤ s.minZIndex := by
  induction ops with
  | nil => intro s a ha; simp [traceBot] at ha
  | cons op rest ih =>
    intro s a ha
    rcases List.mem_append.mp ha with hop | hrest
    · exact botAssigns_le op s a hop
    · have h1 := ih (applyOp op s) a hrest
      have h2 := applyOp_minZIndex_le op s
      omega

theorem traceTop_pairwise (ops : List Op) :
    ∀ s : Canvas, List.Pairwise (· < ·) (traceTop ops s) := by
  induction ops with
  | nil => intro s; simp [traceTop]
  | cons op rest ih =>
    intro s
    show List.Pairwise (· < ·) (topAssigns op s ++ traceTop rest (applyOp op s))
    rw [List.pairwise_append]
    refine ⟨topAssigns_pairwise op s, ih (applyOp op s), ?_⟩
    intro a ha b hb
    have h1 := (topAssigns_bound op s a ha).2
    have h2 := traceTop_lb rest (applyOp op s) b hb
    omega

theorem traceTop_head (ops : List Op) :
    ∀ (s : Canvas) (a : ℤ) (as : List ℤ), traceTop ops s = a :: as → a = s.maxZIndex := by
  induction ops with
  | nil => intro s a as h; simp [traceTop] at h
  | cons op rest ih =>
    intro s a as h
    have h' : topAssigns op s ++ traceTop rest (applyOp op s) = a :: as := h
    cases hta : topAssigns op s with
    | nil =>
      rw [hta, List.nil_append] at h'
      have ha := ih (applyOp op s) a as h'
      have hz := applyOp_maxZIndex op s
      rw [hta] at hz
      simp at hz
      omega
    | cons b bs =>
      rw [hta] at h'
      have hb : b = a := by
        have := List.cons_append b bs (traceTop rest (applyOp op s)) ▸ h'
        injection this with h1 _
      rw [← hb]
      exact topAssigns_head op s b bs hta

theorem traceTop_length_all_add (ops : List Op) (hall : ∀ op ∈ ops, isAddImage op) :
    ∀ s : Canvas, (traceTop ops s).length = ops.length := by
  induction ops with
  | nil => intro s; rfl
  | cons op rest ih =>
    intro s
    have hop := hall op (List.mem_cons_self op rest)
    cases op with
    | addImage src w h =>
      show (topAssigns (Op.addImage src w h) s ++ traceTop rest _).length = rest.length + 1
      rw [List.length_append]
      have := ih (fun o ho => hall o (List.mem_cons_of_mem _ ho)) (applyOp (Op.addImage src w h) s)
      simp [topAssigns, this]
      omega
    | front id => exact absurd hop (by simp [isAddImage])
    | back id => exact absurd hop (by simp [isAddImage])
    | select id => exact absurd hop (by simp [isAddImage])
    | unselectAll => exact absurd hop (by simp [isAddImage])
    | drag id x y => exact absurd hop (by simp [isAddImage])
    | dragEnd id => exact absurd hop (by simp [isAddImage])
    | resize id w h => exact absurd hop (by simp [isAddImage])
    | deleteSel => exact absurd hop (by simp [isAddImage])
    | deleteAll => exact absurd hop (by simp [isAddImage])
    | pan dx dy => exact absurd hop (by simp [isAddImage])

/-! ## Absent-id no-op lemmas -/

theorem moveToFront_absent (id : Nat) (s : Canvas)
    (h : ∀ img ∈ s.images, img.id ≠ id) : moveToFront id s = s := by
  show { s with
    images := (bringToFront id s.images s.maxZIndex).1,
    maxZIndex := (bringToFront id s.images s.maxZIndex).2.1 } = s
  rw [bringToFront_of_absent id s.images s.maxZIndex h]

theorem moveToBack_absent (id : Nat) (s : Canvas)
    (h : ∀ img ∈ s.images, img.id ≠ id) : moveToBack id s = s := by
  show { s with
    images := (sendToBack id s.images s.minZIndex).1,
    minZIndex := (sendToBack id s.images s.minZIndex).2.1 } = s
  rw [sendToBack_of_absent id s.images s.minZIndex h]

theorem handleImageDrag_absent (id : Nat) (x y : ℚ) (s : Canvas)
    (h : ∀ img ∈ s.images, img.id ≠ id) : handleImageDrag id x y s = s := by
  show { s with images := s.images.map _ } = s
  rw [map_eq_self_of _ s.images (fun img hm => if_neg (h img hm))]

theorem handleImageDragEnd_absent (id : Nat) (s : Canvas)
    (h : ∀ img ∈ s.images, img.id ≠ id) : handleImageDragEnd id s = s := by
  show { s with images := s.images.map _ } = s
  rw [map_eq_self_of _ s.images (fun img hm => if_neg (h img hm))]

theorem handleImageResize_absent (id : Nat) (nw nh : ℚ) (s : Canvas)
    (h : ∀ img ∈ s.images, img.id ≠ id) : handleImageResize id nw nh s = s := by
  show { s with images := resizeFirst id nw nh s.images } = s
  rw [resizeFirst_of_absent id nw nh s.images h]

end Imagine

namespace Imagine

/-! ## Claim C1: initial scale of an added image -/

/-- C1 counterexample: the claim predicts `scale = min(1, 600/width, 600/height)`,
hence `1/2` on a 1200×800 image with both displayed dimensions at most 600.
The code's second `if` overwrites the first, yielding `3/4`, and the displayed
width `1200 · (3/4) = 900` exceeds the 600-unit cap. -/
theorem C1_counterexample :
    (onDrop "img" 1200 800 initCanvas).images.map Image.scale = [3 / 4] ∧
    ¬ ((onDrop "img" 1200 800 initCanvas).images.map Image.scale = [1 / 2]) ∧
    ¬ ((1200 : ℚ) * initalScale 1200 800 ≤ 600) := by
  have hs : initalScale 1200 800 = (3 : ℚ) / 4 := by norm_num [initalScale]
  have hmap : (onDrop "img" 1200 800 initCanvas).images.map Image.scale
      = [initalScale 1200 800] := rfl
  refine ⟨?_, ?_, ?_⟩
  · rw [hmap, hs]
  · rw [hmap, hs]
    simp only [List.cons.injEq, and_true]
    norm_num
  · rw [hs]
    norm_num

/-- C1 (amended): the initial scale follows the two overwriting `if`s of
`onDrop`: it is `600/h` when `h > 600` (capping the displayed height at 600,
even when the displayed width then still exceeds 600), else `600/w` when
`w > 600` (capping the displayed width at 600), else `1`; in particular a
1200×800 image gets scale `3/4` and a 300×200 image gets scale `1`. -/
theorem C1_initial_scale (s : Canvas) (src : String) (w h : ℚ) :
    (onDrop src w h s).images.map Image.scale
        = s.images.map Image.scale ++ [initalScale w h] ∧
    (600 < h → initalScale w h = 600 / h ∧ h * initalScale w h = 600) ∧
    (h ≤ 600 → 600 < w → initalScale w h = 600 / w ∧ w * initalScale w h = 600) ∧
    (h ≤ 600 → w ≤ 600 → initalScale w h = 1) ∧
    initalScale 1200 800 = 3 / 4 ∧
    initalScale 300 200 = 1 := by
  refine ⟨?_, ?_, ?_, ?_, ?_, ?_⟩
  · show (s.images ++ [newImage src w h s]).map Image.scale = _
    rw [List.map_append]
    rfl
  · intro hh
    have he : initalScale w h = 600 / h := by
      simp [initalScale, hh]
    refine ⟨he, ?_⟩
    rw [he]
    have h0 : (0 : ℚ) < h := by linarith
    field_simp
  · intro hh hw
    have he : initalScale w h = 600 / w := by
      simp [initalScale, not_lt.mpr hh, hw]
    refine ⟨he, ?_⟩
    rw [he]
    have h0 : (0 : ℚ) < w := by linarith
    field_simp
  · intro hh hw
    simp [initalScale, not_lt.mpr hh, not_lt.mpr hw]
  · norm_num [initalScale]
  · norm_num [initalScale]

/-- Witness for C1: the amended theorem applied at 1200×800 (height branch),
700×100 (width branch) and 300×200 (no shrink). -/
theorem C1_initial_scale_witness :
    (initalScale 1200 800 = 600 / 800 ∧ (800 : ℚ) * initalScale 1200 800 = 600) ∧
    (initalScale 700 100 = 600 / 700 ∧ (700 : ℚ) * initalScale 700 100 = 600) ∧
    initalScale 300 200 = 1 :=
  ⟨(C1_initial_scale initCanvas "w" 1200 800).2.1 (by norm_num),
   (C1_initial_scale initCanvas "w" 700 100).2.2.1 (by norm_num) (by norm_num),
   (C1_initial_scale initCanvas "w" 300 200).2.2.2.1 (by norm_num) (by norm_num)⟩

/-! ## Claim C2: selection toggling -/

/-- C2 counterexample: selecting the same image twice in a row leaves it
selected, not unselected: the clear-all update runs before the toggle, so
the toggle always flips from `false` to `true`. -/
theorem C2_counterexample :
    (handleImageSelect 0 (handleImageSelect 0 smallCanvas)).images.map Image.selected
        = [true] ∧
    ¬ ((handleImageSelect 0 (handleImageSelect 0 smallCanvas)).images.map Image.selected
        = [false]) := by
  refine ⟨by decide, by decide⟩

/-- C2 (amended): `setSelected(id)` leaves selected exactly the images whose
id is the target — because the clear runs first, the toggle always turns the
target on, so a repeat call on the same id keeps it selected (the operation is
idempotent) rather than deselecting it; a call on a different id still moves
the selection exclusively there. -/
theorem C2_select_behavior (s : Canvas) (id : Nat) :
    (∀ img ∈ (handleImageSelect id s).images, img.selected = decide (img.id = id)) ∧
    handleImageSelect id (handleImageSelect id s) = handleImageSelect id s := by
  constructor
  · intro img hmem
    rw [handleImageSelect_eq] at hmem
    obtain ⟨i, hi, rfl⟩ := List.mem_map.mp hmem
    rfl
  · rw [handleImageSelect_eq, handleImageSelect_eq]
    dsimp only
    rw [List.map_map]
    congr 1

/-- Witness for C2: the amended theorem applied to the one-image canvas and
its sole (selected) record. -/
theorem C2_select_behavior_witness :
    ({ smallImage with selected := true }.selected
        = decide ({ smallImage with selected := true }.id = 0)) ∧
    handleImageSelect 0 (handleImageSelect 0 smallCanvas)
        = handleImageSelect 0 smallCanvas := by
  have h := C2_select_behavior smallCanvas 0
  exact ⟨h.1 { smallImage with selected := true } (by decide), h.2⟩

/-! ## Claim C3: resize scale computation -/

/-- C3 counterexample: after a first resize to width 200, a second resize to
width 200 yields scale `200/200 = 1`, not the claimed `200/400 = 1/2`: the
divisor is the stored width overwritten by the first resize, not the natural
width captured at load time. -/
theorem C3_counterexample :
    scaleOf 0 (handleImageResize 0 200 150 (handleImageResize 0 200 150 wideCanvas))
        = some 1 ∧
    ¬ (scaleOf 0 (handleImageResize 0 200 150 (handleImageResize 0 200 150 wideCanvas))
        = some (1 / 2)) := by
  have h1 : scaleOf 0 (handleImageResize 0 200 150 (handleImageResize 0 200 150 wideCanvas))
      = some ((200 : ℚ) / 200) := by
    show (((resizeFirst 0 200 150 (resizeFirst 0 200 150 wideCanvas.images))).find?
        (fun img => img.id == 0)).map Image.scale = _
    rw [resizeFirst_find?, resizeFirst_find?]
    rfl
  constructor
  · rw [h1]
    norm_num
  · rw [h1]
    simp only [Option.some.injEq]
    norm_num

/-- C3 (amended): `resize(id, w, h)` recomputes `scale = w / width` against
the image's currently *stored* width — which resize itself overwrites — so on
a never-resized image the divisor is the natural width (400-wide resized to
200 gives 1/2), but after a prior resize it is that resize's width (a repeat
200-wide resize gives 1, not 1/2). -/
theorem C3_resize_scale (s : Canvas) (id : Nat) (nw nh : ℚ) :
    (handleImageResize id nw nh s).images.find? (fun img => img.id == id)
        = (s.images.find? (fun img => img.id == id)).map
            (fun img => { img with width := nw, height := nh, scale := nw / img.width }) ∧
    scaleOf 0 (handleImageResize 0 200 150 wideCanvas) = some (1 / 2) ∧
    scaleOf 0 (handleImageResize 0 200 150 (handleImageResize 0 200 150 wideCanvas))
        = some 1 := by
  refine ⟨resizeFirst_find? id nw nh s.images, ?_, ?_⟩
  · show ((resizeFirst 0 200 150 wideCanvas.images).find?
        (fun img => img.id == 0)).map Image.scale = _
    rw [resizeFirst_find?]
    show some ((200 : ℚ) / 400) = _
    norm_num
  · show (((resizeFirst 0 200 150 (resizeFirst 0 200 150 wideCanvas.images))).find?
        (fun img => img.id == 0)).map Image.scale = _
    rw [resizeFirst_find?, resizeFirst_find?]
    show some ((200 : ℚ) / 200) = _
    norm_num

/-! ## Claim C4: mutability of the stored dimensions -/

/-- C4 counterexample: the stored `width`/`height` captured at load time are
not immutable: a resize overwrites the stored width 400 with 200. -/
theorem C4_counterexample :
    widthOf 0 wideCanvas = some 400 ∧
    widthOf 0 (handleImageResize 0 200 150 wideCanvas) = some 200 ∧
    ¬ (widthOf 0 (handleImageResize 0 200 150 wideCanvas) = some 400) := by
  refine ⟨rfl, ?_, ?_⟩
  · show ((resizeFirst 0 200 150 wideCanvas.images).find?
        (fun img => img.id == 0)).map Image.width = _
    rw [resizeFirst_find?]
    rfl
  · show ¬ ((resizeFirst 0 200 150 wideCanvas.images).find?
        (fun img => img.id == 0)).map Image.width = some 400
    rw [resizeFirst_find?]
    show ¬ some (200 : ℚ) = some 400
    decide

/-- C4 (amended): the stored dimensions are the natural dimensions only until
the first resize: every operation other than resize preserves each record's
`width`/`height` (addImage appends the pair `(w, h)`, deletion keeps surviving
records intact), while resize overwrites them with its arguments. -/
theorem C4_dims (s : Canvas) (id : Nat) (x y dx dy w h : ℚ) (src : String) :
    (moveToFront id s).images.map dims = s.images.map dims ∧
    (moveToBack id s).images.map dims = s.images.map dims ∧
    (handleImageSelect id s).images.map dims = s.images.map dims ∧
    (unselectAllImages s).images.map dims = s.images.map dims ∧
    (handleImageDrag id x y s).images.map dims = s.images.map dims ∧
    (handleImageDragEnd id s).images.map dims = s.images.map dims ∧
    (panDrag dx dy s).images = s.images ∧
    (onDrop src w h s).images.map dims = s.images.map dims ++ [(w, h)] ∧
    (∀ img ∈ (deleteSelected s).images, img ∈ s.images) ∧
    widthOf 0 (handleImageResize 0 200 150 wideCanvas) = some 200 := by
  refine ⟨?_, ?_, ?_, ?_, ?_, ?_, ?_, ?_, ?_, ?_⟩
  · exact bringToFront_map_eq id dims (fun _ _ => rfl) s.images s.maxZIndex
  · exact sendToBack_map_eq id dims (fun _ _ => rfl) s.images s.minZIndex
  · rw [handleImageSelect_eq]
    exact map_map_proj dims (fun img => { img with selected := decide (img.id = id) })
      (fun img => rfl) s.images
  · exact map_map_proj dims (fun img => { img with selected := false })
      (fun img => rfl) s.images
  · exact map_map_proj dims (fun img =>
      if img.id = id then { img with x := x, y := y, dragging := true } else img)
      (fun img => by by_cases hc : img.id = id <;> simp [hc, dims]) s.images
  · exact map_map_proj dims (fun img =>
      if img.id = id then { img with dragging := false } else img)
      (fun img => by by_cases hc : img.id = id <;> simp [hc, dims]) s.images
  · show (panDrag dx dy s).images = s.images
    unfold panDrag
    split <;> rfl
  · show (s.images ++ [newImage src w h s]).map dims = _
    rw [List.map_append]
    rfl
  · exact fun img hm => List.mem_of_mem_filter hm
  · show ((resizeFirst 0 200 150 wideCanvas.images).find?
        (fun img => img.id == 0)).map Image.width = _
    rw [resizeFirst_find?]
    rfl

/-- Witness for C4: the amended theorem applied to the one-image canvas, its
deletion-survivor membership hypothesis discharged on the concrete record. -/
theorem C4_dims_witness :
    smallImage ∈ smallCanvas.images ∧
    (moveToFront 0 smallCanvas).images.map dims = smallCanvas.images.map dims := by
  have hc := C4_dims smallCanvas 0 0 0 0 0 100 100 "a"
  exact ⟨hc.2.2.2.2.2.2.2.2.1 smallImage (by decide), hc.1⟩

end Imagine

namespace Imagine

/-- `List.any` over the id predicate only depends on the mapped ids. -/
theorem any_id_congr (id : Nat) :
    ∀ l l' : List Image, l.map Image.id = l'.map Image.id →
      l.any (fun img => img.id == id) = l'.any (fun img => img.id == id) := by
  intro l
  induction l with
  | nil =>
    intro l' h
    cases l' with
    | nil => rfl
    | cons b u => simp at h
  | cons a t ih =>
    intro l' h
    cases l' with
    | nil => simp at h
    | cons b u =>
      simp only [List.map_cons, List.cons.injEq] at h
      obtain ⟨h1, h2⟩ := h
      simp only [List.any_cons, h1, ih u h2]

/-! ## Claim C5: monotonicity of top-counter assignments -/

/-- C5: the z values assigned from the top counter along any run from the
empty canvas are pairwise strictly increasing, the first one is 1, an
addImage-only history assigns one value per call, and a double moveToFront
on a present id strictly raises that image's z both times, leaving it above
every other image's z. -/
theorem C5_top_counter (ops : List Op) :
    List.Pairwise (· < ·) (traceTop ops initCanvas) ∧
    (∀ (a : ℤ) (as : List ℤ), traceTop ops initCanvas = a :: as → a = 1) ∧
    ((∀ op ∈ ops, isAddImage op) → (traceTop ops initCanvas).length = ops.length) ∧
    (∀ (s : Canvas) (id : Nat), Reachable s →
      s.images.any (fun img => img.id == id) = true →
      zOf id (moveToFront id s) = some s.maxZIndex ∧
      zOf id (moveToFront id (moveToFront id s)) = some (moveToFront id s).maxZIndex ∧
      (∀ z0, zOf id s = some z0 → z0 < s.maxZIndex) ∧
      s.maxZIndex < (moveToFront id s).maxZIndex ∧
      (∀ img ∈ (moveToFront id (moveToFront id s)).images, img.id ≠ id →
        img.zIndex < (moveToFront id s).maxZIndex)) := by
  refine ⟨traceTop_pairwise ops initCanvas, ?_, ?_, ?_⟩
  · intro a as hh
    have := traceTop_head ops initCanvas a as hh
    simpa [initCanvas] using this
  · intro hall
    exact traceTop_length_all_add ops hall initCanvas
  · intro s id hreach hany
    have hinv := reachable_inv hreach
    have hids1 : (moveToFront id s).images.map Image.id = s.images.map Image.id :=
      bringToFront_map_eq id Image.id (fun _ _ => rfl) s.images s.maxZIndex
    have hany1 : (moveToFront id s).images.any (fun img => img.id == id) = true := by
      rw [any_id_congr id (moveToFront id s).images s.images hids1]
      exact hany
    refine ⟨?_, ?_, ?_, ?_, ?_⟩
    · exact bringToFront_find? id s.images s.maxZIndex hany
    · exact bringToFront_find? id (moveToFront id s).images (moveToFront id s).maxZIndex hany1
    · intro z0 hz0
      unfold zOf at hz0
      cases hfind : s.images.find? (fun img => img.id == id) with
      | none =>
        rw [hfind] at hz0
        simp at hz0
      | some img =>
        rw [hfind] at hz0
        simp at hz0
        have hmem := List.mem_of_find?_eq_some hfind
        have := hinv.zBelow img hmem
        omega
    · show s.maxZIndex < (bringToFront id s.images s.maxZIndex).2.1
      exact bringToFront_counter_lt id s.images s.maxZIndex hany
    · intro img hmem hne
      rcases bringToFront_mem id (moveToFront id s).images (moveToFront id s).maxZIndex
          img hmem with h1 | ⟨heq, _, _⟩
      · rcases bringToFront_mem id s.images s.maxZIndex img h1 with h2 | ⟨heq, _, _⟩
        · have hz := hinv.zBelow img h2
          have hlt := bringToFront_counter_lt id s.images s.maxZIndex hany
          show img.zIndex < (bringToFront id s.images s.maxZIndex).2.1
          omega
        · exact absurd heq hne
      · exact absurd heq hne

/-- Witness for C5: the theorem applied to the two-add history and a double
moveToFront on the first image of the reached canvas. -/
theorem C5_top_counter_witness :
    (1 : ℤ) = 1 ∧
    (traceTop demoOps initCanvas).length = demoOps.length ∧
    zOf 0 (moveToFront 0 demoCanvas) = some demoCanvas.maxZIndex ∧
    zOf 0 (moveToFront 0 (moveToFront 0 demoCanvas))
        = some (moveToFront 0 demoCanvas).maxZIndex ∧
    (1 : ℤ) < demoCanvas.maxZIndex ∧
    demoCanvas.maxZIndex < (moveToFront 0 demoCanvas).maxZIndex ∧
    imageB.zIndex < (moveToFront 0 demoCanvas).maxZIndex := by
  have h := C5_top_counter demoOps
  have h2 := h.2.2.2 demoCanvas 0 ⟨demoOps, rfl⟩ (by decide)
  exact ⟨h.2.1 1 [2] (by decide), h.2.2.1 (by simp [demoOps, isAddImage]),
    h2.1, h2.2.1, h2.2.2.1 1 (by decide), h2.2.2.2.1,
    h2.2.2.2.2 imageB (by decide) (by decide)⟩

/-! ## Claim C6: panning is suppressed while dragging -/

/-- C6: the pan handler leaves the offset unchanged while any image has
`dragging = true`; with no image dragging it sets the offset (and touches no
image); once the only dragged image ends its drag, the next pan succeeds. -/
theorem C6_pan_drag_exclusion (s : Canvas) (dx dy : ℚ) :
    ((∃ img ∈ s.images, img.dragging = true) → panDrag dx dy s = s) ∧
    ((∀ img ∈ s.images, img.dragging = false) →
      (panDrag dx dy s).panX = dx ∧ (panDrag dx dy s).panY = dy ∧
      (panDrag dx dy s).images = s.images) ∧
    (∀ id, (∀ img ∈ s.images, img.dragging = true → img.id = id) →
      (panDrag dx dy (handleImageDragEnd id s)).panX = dx ∧
      (panDrag dx dy (handleImageDragEnd id s)).panY = dy) := by
  refine ⟨?_, ?_, ?_⟩
  · intro hex
    obtain ⟨img, hmem, hdrag⟩ := hex
    unfold panDrag
    rw [if_pos]
    exact List.any_eq_true.mpr ⟨img, hmem, hdrag⟩
  · intro hall
    have hany : s.images.any (fun img => img.dragging) = false := by
      rw [List.any_eq_false]
      intro img hmem
      simp [hall img hmem]
    unfold panDrag
    rw [if_neg]
    · exact ⟨rfl, rfl, rfl⟩
    · simp [hany]
  · intro id hall
    have hnone : ∀ img ∈ (handleImageDragEnd id s).images, img.dragging = false := by
      intro img hmem
      obtain ⟨i, hi, rfl⟩ := List.mem_map.mp hmem
      by_cases hc : i.id = id
      · simp [hc]
      · simp only [if_neg hc]
        cases hd : i.dragging
        · rfl
        · exact absurd (hall i hi hd) hc
    have hany2 : (handleImageDragEnd id s).images.any (fun img => img.dragging) = false := by
      rw [List.any_eq_false]
      intro img hmem
      simp [hnone img hmem]
    show (panDrag dx dy (handleImageDragEnd id s)).panX = dx ∧ _
    unfold panDrag
    rw [if_neg]
    · exact ⟨rfl, rfl⟩
    · simp [hany2]

/-- Witness for C6: a dragging image blocks the pan; the quiet one-image
canvas accepts it; after endDrag on the dragged image the pan succeeds. -/
theorem C6_pan_drag_exclusion_witness :
    panDrag 7 8 (handleImageDrag 0 5 5 smallCanvas) = handleImageDrag 0 5 5 smallCanvas ∧
    (panDrag 7 8 smallCanvas).panX = 7 ∧ (panDrag 7 8 smallCanvas).panY = 8 ∧
    (panDrag 7 8 smallCanvas).images = smallCanvas.images ∧
    (panDrag 7 8 (handleImageDragEnd 0 (handleImageDrag 0 5 5 smallCanvas))).panX = 7 ∧
    (panDrag 7 8 (handleImageDragEnd 0 (handleImageDrag 0 5 5 smallCanvas))).panY = 8 := by
  have hA := (C6_pan_drag_exclusion (handleImageDrag 0 5 5 smallCanvas) 7 8).1
    ⟨{ smallImage with x := 5, y := 5, dragging := true }, by decide, by decide⟩
  have hB := (C6_pan_drag_exclusion smallCanvas 7 8).2.1 (by decide)
  have hC := (C6_pan_drag_exclusion (handleImageDrag 0 5 5 smallCanvas) 7 8).2.2 0 (by decide)
  exact ⟨hA, hB.1, hB.2.1, hB.2.2, hC.1, hC.2⟩

/-! ## Claim C7: deleteSelected removes exactly the selected images -/

/-- C7: deleteSelected keeps exactly the unselected records — a no-op on the
whole state when nothing is selected; survivors keep their relative order and
all fields (the kept list is a sublist of the original); pan and counters are
untouched. -/
theorem C7_deleteSelected (s : Canvas) :
    ((∀ img ∈ s.images, img.selected = false) → deleteSelected s = s) ∧
    (deleteSelected s).images.Sublist s.images ∧
    (∀ img : Image, img ∈ (deleteSelected s).images ↔
      img ∈ s.images ∧ img.selected = false) ∧
    (deleteSelected s).panX = s.panX ∧ (deleteSelected s).panY = s.panY ∧
    (deleteSelected s).maxZIndex = s.maxZIndex ∧
    (deleteSelected s).minZIndex = s.minZIndex := by
  refine ⟨?_, List.filter_sublist s.images, ?_, rfl, rfl, rfl, rfl⟩
  · intro hall
    show { s with images := s.images.filter (fun img => !img.selected) } = s
    have hfl : s.images.filter (fun img => !img.selected) = s.images :=
      List.filter_eq_self.mpr (fun img hmem => by simp [hall img hmem])
    rw [hfl]
  · intro img
    constructor
    · intro hmem
      refine ⟨List.mem_of_mem_filter hmem, ?_⟩
      have := List.of_mem_filter hmem
      simpa using this
    · intro hand
      exact List.mem_filter.mpr ⟨hand.1, by simp [hand.2]⟩

/-- Witness for C7: the unselected two-image canvas survives unchanged. -/
theorem C7_deleteSelected_witness :
    deleteSelected demoCanvas = demoCanvas ∧
    (deleteSelected demoCanvas).images.Sublist demoCanvas.images ∧
    (imageB ∈ (deleteSelected demoCanvas).images ↔
      imageB ∈ demoCanvas.images ∧ imageB.selected = false) := by
  have h := C7_deleteSelected demoCanvas
  exact ⟨h.1 (by decide), h.2.1, h.2.2.1 imageB⟩

/-! ## Claim C8: id-addressed operations on a missing id are no-ops -/

/-- C8: when no image carries the id, moveToFront, moveToBack, updateDrag,
endDrag and resize each return the state unchanged — image list, pan offset
and both z counters included. -/
theorem C8_absent_id (s : Canvas) (id : Nat) (x y nw nh : ℚ)
    (h : ∀ img ∈ s.images, img.id ≠ id) :
    moveToFront id s = s ∧
    moveToBack id s = s ∧
    handleImageDrag id x y s = s ∧
    handleImageDragEnd id s = s ∧
    handleImageResize id nw nh s = s :=
  ⟨moveToFront_absent id s h, moveToBack_absent id s h,
   handleImageDrag_absent id x y s h, handleImageDragEnd_absent id s h,
   handleImageResize_absent id nw nh s h⟩

/-- Witness for C8: id 5 is absent from the two-image canvas. -/
theorem C8_absent_id_witness :
    moveToFront 5 demoCanvas = demoCanvas ∧
    moveToBack 5 demoCanvas = demoCanvas ∧
    handleImageDrag 5 3 4 demoCanvas = demoCanvas ∧
    handleImageDragEnd 5 demoCanvas = demoCanvas ∧
    handleImageResize 5 60 60 demoCanvas = demoCanvas :=
  C8_absent_id demoCanvas 5 3 4 60 60 (by decide)

/-! ## Claim C9: at most one image is ever selected -/

/-- C9: every reachable state has at most one selected image: addImage
appends an unselected record, clearSelection clears every flag, and
setSelected leaves selected exactly the images carrying the target id. -/
theorem C9_at_most_one_selected :
    (∀ s : Canvas, Reachable s →
      (s.images.filter (fun img => img.selected)).length ≤ 1) ∧
    (∀ (src : String) (w h : ℚ) (s : Canvas),
      (onDrop src w h s).images.map Image.selected
        = s.images.map Image.selected ++ [false]) ∧
    (∀ s : Canvas, ∀ img ∈ (unselectAllImages s).images, img.selected = false) ∧
    (∀ (s : Canvas) (id : Nat), ∀ img ∈ (handleImageSelect id s).images,
      img.selected = decide (img.id = id)) := by
  refine ⟨?_, ?_, ?_, ?_⟩
  · intro s hreach
    exact (reachable_inv hreach).selAtMostOne
  · intro src w h s
    show (s.images ++ [newImage src w h s]).map Image.selected = _
    rw [List.map_append]
    rfl
  · intro s img hmem
    obtain ⟨i, hi, rfl⟩ := List.mem_map.mp hmem
    rfl
  · intro s id img hmem
    rw [handleImageSelect_eq] at hmem
    obtain ⟨i, hi, rfl⟩ := List.mem_map.mp hmem
    rfl

/-- Witness for C9: a select on the reached two-image canvas keeps the
selected count at one, and the concrete records evaluate as stated. -/
theorem C9_at_most_one_selected_witness :
    ((handleImageSelect 0 demoCanvas).images.filter (fun img => img.selected)).length ≤ 1 ∧
    smallImage.selected = false ∧
    ({ smallImage with selected := true }.selected
        = decide ({ smallImage with selected := true }.id = 0)) := by
  have h := C9_at_most_one_selected
  refine ⟨h.1 (handleImageSelect 0 demoCanvas) ⟨demoOps ++ [Op.select 0], rfl⟩, ?_, ?_⟩
  · exact h.2.2.1 smallCanvas smallImage (by decide)
  · exact h.2.2.2 smallCanvas 0 { smallImage with selected := true } (by decide)

/-! ## Claim C10: deletion preserves the counters -/

/-- C10: deleteAll and deleteSelected change only the image list — both z
counters and the pan offset survive — so the first addImage after a deleteAll
is assigned the preserved top-counter value: strictly above every z ever
assigned from either counter along the history, and different from 1 whenever
the top counter had assigned anything. -/
theorem C10_counters_survive_delete (s : Canvas) (ops : List Op)
    (src : String) (w h : ℚ) :
    (deleteAllImages s).maxZIndex = s.maxZIndex ∧
    (deleteAllImages s).minZIndex = s.minZIndex ∧
    (deleteAllImages s).panX = s.panX ∧
    (deleteAllImages s).panY = s.panY ∧
    (deleteSelected s).maxZIndex = s.maxZIndex ∧
    (deleteSelected s).minZIndex = s.minZIndex ∧
    (deleteSelected s).panX = s.panX ∧
    (deleteSelected s).panY = s.panY ∧
    (s = run ops initCanvas →
      (onDrop src w h (deleteAllImages s)).images
          = [newImage src w h (deleteAllImages s)] ∧
      (newImage src w h (deleteAllImages s)).zIndex = s.maxZIndex ∧
      (∀ a ∈ traceTop ops initCanvas,
        a < (newImage src w h (deleteAllImages s)).zIndex) ∧
      (∀ a ∈ traceBot ops initCanvas,
        a < (newImage src w h (deleteAllImages s)).zIndex) ∧
      (traceTop ops initCanvas ≠ [] →
        (newImage src w h (deleteAllImages s)).zIndex ≠ 1)) := by
  refine ⟨rfl, rfl, rfl, rfl, rfl, rfl, rfl, rfl, ?_⟩
  rintro rfl
  refine ⟨rfl, rfl, ?_, ?_, ?_⟩
  · intro a ha
    exact traceTop_ub ops initCanvas a ha
  · intro a ha
    have h1 : a ≤ -1 := traceBot_ub ops initCanvas a ha
    have h2 : (1 : ℤ) ≤ (run ops initCanvas).maxZIndex := run_maxZIndex_le ops initCanvas
    show a < (run ops initCanvas).maxZIndex
    omega
  · intro hne
    have hlen : (traceTop ops initCanvas).length ≠ 0 :=
      fun h0 => hne (List.length_eq_zero.mp h0)
    have hrun : (run ops initCanvas).maxZIndex
        = 1 + (traceTop ops initCanvas).length := run_maxZIndex ops initCanvas
    show (run ops initCanvas).maxZIndex ≠ 1
    omega

/-- Witness for C10: the history with two adds and one moveToBack; after a
deleteAll the next added image gets z-index 3, above the top-assigned 1 and 2
and the bottom-assigned −1. -/
theorem C10_counters_survive_delete_witness :
    (deleteAllImages backCanvas).maxZIndex = backCanvas.maxZIndex ∧
    (deleteSelected backCanvas).panX = backCanvas.panX ∧
    (onDrop "c" 50 50 (deleteAllImages backCanvas)).images
        = [newImage "c" 50 50 (deleteAllImages backCanvas)] ∧
    (newImage "c" 50 50 (deleteAllImages backCanvas)).zIndex = backCanvas.maxZIndex ∧
    ((2 : ℤ) < (newImage "c" 50 50 (deleteAllImages backCanvas)).zIndex) ∧
    ((-1 : ℤ) < (newImage "c" 50 50 (deleteAllImages backCanvas)).zIndex) ∧
    (newImage "c" 50 50 (deleteAllImages backCanvas)).zIndex ≠ 1 := by
  have h := C10_counters_survive_delete backCanvas backOps "c" 50 50
  have h9 := h.2.2.2.2.2.2.2.2 rfl
  exact ⟨h.1, h.2.2.2.2.2.2.1, h9.1, h9.2.1, h9.2.2.1 2 (by decide),
    h9.2.2.2.1 (-1) (by decide), h9.2.2.2.2 (by decide)⟩

end Imagine
